import Mathlib

/-!
Shallow embedding of `src/main.py` (a FastAPI Binance USDT-M futures trading
server) for verification of its design-level claims.

Modelling conventions:
- Python `float` values are modelled as exact rationals (`ℚ`).  Fixed-precision
  rendering (`f"{x:.2f}"`, `f"{x:.3f}"`) is modelled as correctly rounded
  decimal formatting (round half to even) of the rational, which is what
  CPython's formatter computes on the underlying value.
- Gateway interactions are modelled by oracles: the responses the live system
  would receive are inputs of the embedded functions, which return the complete
  trace of gateway calls made and the levels of the `push_log` entries emitted.
- The in-memory log store (`_terminal_logs`, `_log_subscribers`) is modelled as
  an explicit state `BusState`; each subscriber queue is the list of entries it
  holds, bounded by the `asyncio.Queue(maxsize=200)` capacity.
-/

namespace TgcAlgo

/-- Severity levels used by `push_log` in `main.py`. -/
inductive Level
  | info
  | warn
  | success
  | error
deriving DecidableEq, Repr

/-- One entry of the in-memory log store (`main.py` line 30). -/
structure LogEntry where
  ts : String
  level : Level
  msg : String
deriving DecidableEq, Repr

/-- Shared config (`main.py` lines 42-50). -/
def SYMBOL : String := "BTCUSDT"

/-- Configured leverage (`main.py` line 44). -/
def LEVERAGE : ℚ := 10

/-- Default margin amount (`main.py` line 45). -/
def AMOUNT : ℚ := 1650

/-- Default take-profit offset (`main.py` line 46). -/
def TP_OFFSET : ℚ := 1000

/-- Default stop-loss offset (`main.py` line 47). -/
def SL_OFFSET : ℚ := 300

/-- Working type used for conditional orders (`main.py` line 48). -/
def WORKING_TYPE : String := "MARK_PRICE"

/-- The ring-buffer step of `push_log` (`main.py` lines 31-33): append the
entry, then if the length exceeds 200 drop the oldest element (`pop(0)`). -/
def ringAppend (log : List LogEntry) (e : LogEntry) : List LogEntry :=
  let l := log ++ [e]
  if 200 < l.length then l.drop 1 else l

/-- State of the in-memory log store: the retained ring (`_terminal_logs`) and
the subscriber queues (`_log_subscribers`), oldest-first. -/
structure BusState where
  log : List LogEntry
  subs : List (List LogEntry)
deriving DecidableEq, Repr

/-- `push_log` (`main.py` lines 29-39): append to the bounded ring and offer the
entry to every subscriber queue; a queue at its `maxsize=200` capacity drops the
entry (`put_nowait` raises and the entry is not delivered to that queue). -/
def push_log (s : BusState) (e : LogEntry) : BusState :=
  { log := ringAppend s.log e
    subs := s.subs.map fun q => if q.length < 200 then q ++ [e] else q }

/-- The subscription step of the `/logs/stream` endpoint (`main.py` lines
324-325): a fresh empty queue is appended to `_log_subscribers`.  No retained
entries are put into the new queue. -/
def subscribeStream (s : BusState) : BusState :=
  { s with subs := s.subs ++ [[]] }

/-- `initial_logs` of the dashboard template context (`main.py` line 70):
`_terminal_logs[-50:]`, the most recent 50 retained entries. -/
def initial_logs (s : BusState) : List LogEntry :=
  s.log.drop (s.log.length - 50)

/-- Little-endian decimal digits of `n`, with explicit fuel (`fuel ≥ n`
suffices for correctness; any fuel keeps the length bound below). -/
def digitsAux (fuel n : ℕ) : List ℕ :=
  match fuel, n with
  | 0, _ => []
  | _ + 1, 0 => []
  | fuel + 1, n + 1 => (n + 1) % 10 :: digitsAux fuel ((n + 1) / 10)

/-- Decimal digit characters of `n`, most significant first; empty for 0. -/
def natStr (n : ℕ) : List Char :=
  ((digitsAux n n).map Nat.digitChar).reverse

/-- Decimal rendering of `n` with "0" for zero (integer part of a float). -/
def natStrZ (n : ℕ) : List Char :=
  if n = 0 then ['0'] else natStr n

/-- Fractional part of a fixed-point rendering: `n` (which is `< 10 ^ d`)
zero-padded on the left to exactly `d` digits. -/
def padFrac (d n : ℕ) : List Char :=
  List.replicate (d - (natStr n).length) '0' ++ natStr n

/-- Round a rational to an integer, half to even (the rounding CPython's
fixed-precision float formatting applies). -/
def roundHE (q : ℚ) : ℤ :=
  if q - ⌊q⌋ < 1 / 2 then ⌊q⌋
  else if 1 / 2 < q - ⌊q⌋ then ⌊q⌋ + 1
  else if ⌊q⌋ % 2 = 0 then ⌊q⌋ else ⌊q⌋ + 1

/-- Digit characters of the fixed-point rendering of a nonnegative scaled
magnitude `n` (units of `10 ^ (-d)`). -/
def fixedChars (d n : ℕ) : List Char :=
  natStrZ (n / 10 ^ d) ++ '.' :: padFrac d (n % 10 ^ d)

/-- `f"{q:.d f}"`: correctly rounded fixed-point decimal rendering with exactly
`d` digits after the point. -/
def fmtFixed (d : ℕ) (q : ℚ) : String :=
  let scaled := roundHE (q * (10 : ℚ) ^ d)
  if scaled < 0 then String.mk ('-' :: fixedChars d (-scaled).toNat)
  else String.mk (fixedChars d scaled.toNat)

/-- `fmt_price` (`main.py` line 58): two decimal digits. -/
def fmt_price (p : ℚ) : String := fmtFixed 2 p

/-- `fmt_qty` (`main.py` line 59): three decimal digits. -/
def fmt_qty (q : ℚ) : String := fmtFixed 3 q

/-- `exit_side` (`main.py` line 60). -/
def exit_side (side : String) : String :=
  if side = "BUY" then "SELL" else "BUY"

/-- Order quantity (`main.py` line 148): `amount * LEVERAGE / limit_price`. -/
def quantity (amount limit_price : ℚ) : ℚ :=
  amount * LEVERAGE / limit_price

/-- Take-profit trigger price (`main.py` line 149). -/
def take_profit (side : String) (limit_price tp_offset : ℚ) : ℚ :=
  if side = "BUY" then limit_price + tp_offset else limit_price - tp_offset

/-- Stop-loss trigger price (`main.py` line 150). -/
def stop_loss (side : String) (limit_price sl_offset : ℚ) : ℚ :=
  if side = "BUY" then limit_price - sl_offset else limit_price + sl_offset

/-- Take-profit execution price (`main.py` line 201). -/
def tp_exec (side : String) (tp : ℚ) : ℚ :=
  if side = "BUY" then tp - 5 else tp + 5

/-- Stop-loss execution price (`main.py` line 202). -/
def sl_exec (side : String) (sl : ℚ) : ℚ :=
  if side = "BUY" then sl - 10 else sl + 10

/-- A gateway error (`binance.error.ClientError` or any other exception raised
by a client call). -/
structure GErr where
  code : ℤ
  emsg : String
deriving DecidableEq, Repr

/-- Relevant fields of a `query_order` response (`main.py` lines 184-189). -/
structure OrderStatusResp where
  status : String
  executedQty : ℚ
deriving DecidableEq, Repr

/-- The parameter dict of a `POST /fapi/v1/algoOrder` call (`main.py` lines
205-216 and 221-232).  `otype` is the `"type"` key (a reserved word here). -/
structure AlgoParams where
  symbol : String
  side : String
  algoType : String
  otype : String
  aqty : String
  price : String
  triggerPrice : String
  timeInForce : String
  workingType : String
  reduceOnly : String
deriving DecidableEq, Repr

instance {ε α : Type} [DecidableEq ε] [DecidableEq α] :
    DecidableEq (Except ε α) := fun a b =>
  match a, b with
  | .ok x, .ok y =>
    if h : x = y then .isTrue (by rw [h]) else .isFalse (by simp [h])
  | .error x, .error y =>
    if h : x = y then .isTrue (by rw [h]) else .isFalse (by simp [h])
  | .ok _, .error _ => .isFalse (by simp)
  | .error _, .ok _ => .isFalse (by simp)

/-- One gateway call made by `run_order`, with the response it received where
later control flow depends on it. -/
inductive Call
  | change_leverage
  | new_order (side qty price : String)
  | query_order (resp : Except GErr OrderStatusResp)
  | place_algo (p : AlgoParams)
deriving DecidableEq, Repr

/-- Whether a call is a protective-order placement. -/
def Call.isPlace : Call → Bool
  | .place_algo _ => true
  | _ => false

/-- Outcome of the fill-wait loop (`main.py` lines 181-197). -/
inductive FillOutcome
  | filled
  | terminalNonFill
  | gatewayError
  | stillWaiting
deriving DecidableEq, Repr

/-- Calls and log levels produced by the fill-wait loop, with its outcome. -/
structure FillRes where
  calls : List Call
  logs : List Level
  outcome : FillOutcome
deriving DecidableEq, Repr

/-- The fill-wait loop (`main.py` lines 181-197), driven by the finite list of
`query_order` responses the exchange returns; an exhausted list means the run
is still polling (the loop has no timeout).  Each iteration records the call;
on a response the loop logs the poll line (INFO), then: FILLED logs SUCCESS and
leaves the loop; CANCELED/REJECTED/EXPIRED logs ERROR and ends the run;
PARTIALLY_FILLED logs WARN and keeps polling; any other status keeps polling.
A raised `ClientError` propagates out (handled by `run_order`). -/
def fillWait : List (Except GErr OrderStatusResp) → FillRes
  | [] => ⟨[], [], .stillWaiting⟩
  | .error e :: _ => ⟨[.query_order (.error e)], [], .gatewayError⟩
  | .ok r :: rest =>
    if r.status = "FILLED" then
      ⟨[.query_order (.ok r)], [.info, .success], .filled⟩
    else if r.status = "CANCELED" ∨ r.status = "REJECTED" ∨ r.status = "EXPIRED" then
      ⟨[.query_order (.ok r)], [.info, .error], .terminalNonFill⟩
    else if r.status = "PARTIALLY_FILLED" then
      let fr := fillWait rest
      ⟨.query_order (.ok r) :: fr.calls, .info :: .warn :: .info :: fr.logs, fr.outcome⟩
    else
      let fr := fillWait rest
      ⟨.query_order (.ok r) :: fr.calls, .info :: .info :: fr.logs, fr.outcome⟩

/-- The exchange-side responses one `run_order` execution observes. -/
structure Oracle where
  levResp : Except GErr Unit
  entryResp : Except GErr ℕ
  polls : List (Except GErr OrderStatusResp)
  tpResp : Except GErr ℕ
  slResp : Except GErr ℕ
deriving Repr

/-- Terminal state of one `run_order` execution. -/
inductive RunOutcome
  | aborted
  | complete
  | polling
deriving DecidableEq, Repr

/-- Everything one `run_order` execution did: its gateway calls in order, the
levels of its `push_log` entries in order, and how it ended. -/
structure RunResult where
  calls : List Call
  logs : List Level
  outcome : RunOutcome
deriving Repr

/-- The TAKE_PROFIT algo-order parameters (`main.py` lines 205-216). -/
def tpParams (side : String) (limit_price amount tp_offset : ℚ) : AlgoParams :=
  { symbol := SYMBOL
    side := exit_side side
    algoType := "CONDITIONAL"
    otype := "TAKE_PROFIT"
    aqty := fmt_qty (quantity amount limit_price)
    price := fmt_price (tp_exec side (take_profit side limit_price tp_offset))
    triggerPrice := fmt_price (take_profit side limit_price tp_offset)
    timeInForce := "GTC"
    workingType := WORKING_TYPE
    reduceOnly := "true" }

/-- The STOP algo-order parameters (`main.py` lines 221-232). -/
def slParams (side : String) (limit_price amount sl_offset : ℚ) : AlgoParams :=
  { symbol := SYMBOL
    side := exit_side side
    algoType := "CONDITIONAL"
    otype := "STOP"
    aqty := fmt_qty (quantity amount limit_price)
    price := fmt_price (sl_exec side (stop_loss side limit_price sl_offset))
    triggerPrice := fmt_price (stop_loss side limit_price sl_offset)
    timeInForce := "GTC"
    workingType := WORKING_TYPE
    reduceOnly := "true" }

/-- `run_order` (`main.py` lines 145-246).  The nine header `push_log` lines
(152-160) are followed by the four steps; any `ClientError`/exception reaching
the function-level handler appends two ERROR lines (242-243 or 245-246). -/
def run_order (o : Oracle) (side : String)
    (limit_price amount tp_offset sl_offset : ℚ) : RunResult :=
  let q := quantity amount limit_price
  let header : List Level :=
    [.info, .info, .info, .info, .info, .info, .info, .info, .info]
  match o.levResp with
  | .error _ =>
    ⟨[.change_leverage], header ++ [.info, .error, .error], .aborted⟩
  | .ok _ =>
    let entryCall := Call.new_order side (fmt_qty q) (fmt_price limit_price)
    match o.entryResp with
    | .error _ =>
      ⟨[.change_leverage, entryCall],
       header ++ [.info, .success, .info, .error, .error], .aborted⟩
    | .ok _entry_id =>
      let pre : List Level := [.info, .success, .info, .success, .info]
      let fr := fillWait o.polls
      let base := [Call.change_leverage, entryCall]
      match fr.outcome with
      | .stillWaiting => ⟨base ++ fr.calls, header ++ pre ++ fr.logs, .polling⟩
      | .gatewayError =>
        ⟨base ++ fr.calls, header ++ pre ++ fr.logs ++ [.error, .error], .aborted⟩
      | .terminalNonFill => ⟨base ++ fr.calls, header ++ pre ++ fr.logs, .aborted⟩
      | .filled =>
        let tpP := tpParams side limit_price amount tp_offset
        match o.tpResp with
        | .error _ =>
          ⟨base ++ fr.calls ++ [.place_algo tpP],
           header ++ pre ++ fr.logs ++ [.info, .info, .error, .error], .aborted⟩
        | .ok _tp_id =>
          let slP := slParams side limit_price amount sl_offset
          match o.slResp with
          | .error _ =>
            ⟨base ++ fr.calls ++ [.place_algo tpP, .place_algo slP],
             header ++ pre ++ fr.logs ++
               [.info, .info, .success, .info, .error, .error], .aborted⟩
          | .ok _sl_id =>
            ⟨base ++ fr.calls ++ [.place_algo tpP, .place_algo slP],
             header ++ pre ++ fr.logs ++
               [.info, .info, .success, .info, .success, .info, .success,
                .success, .info], .complete⟩

/-- One element of a `/fapi/v2/positionRisk` response list (`main.py` lines
103-105).  `positionAmt` is the result of `float(p.get("positionAmt", 0))`:
`Except.error` models a string that fails to parse (raising `ValueError`). -/
structure PosEntry where
  symbol : String
  positionAmt : Except Unit ℚ
deriving DecidableEq, Repr

/-- A `/fapi/v2/positionRisk` response body: a JSON list, or anything else
(`isinstance(positions, list)` fails, `main.py` line 103). -/
inductive PosResp
  | jlist (entries : List PosEntry)
  | otherJson
deriving DecidableEq, Repr

/-- One open algo order as reported by `/fapi/v1/openAlgoOrders`; only the
fields the monitor reads (`main.py` lines 124-126).  `algoId` is `none` when
the key is missing (`o.get("algoId")` returns `None`). -/
structure AlgoOrder where
  algoId : Option ℕ
  orderType : Option String
  triggerPrice : Option ℚ
deriving DecidableEq, Repr

/-- A `/fapi/v1/openAlgoOrders` response body (`main.py` lines 110-118): a
dict with optional `orders`/`algoOrders`/`data` keys, a bare list, or anything
else. -/
inductive AlgoResp
  | jdict (orders algoOrders data : Option (List AlgoOrder))
  | jlist (l : List AlgoOrder)
  | otherJson
deriving DecidableEq, Repr

/-- Python `a or b or c or []` over optional list values: the first key that
is present and truthy (a non-empty list); absent keys (`None`) and empty lists
are falsy. -/
def firstTruthy : List (Option (List AlgoOrder)) → List AlgoOrder
  | [] => []
  | some l :: rest => if l = [] then firstTruthy rest else l
  | none :: rest => firstTruthy rest

/-- `algo_orders` as extracted from the response (`main.py` lines 110-118). -/
def algoOrdersOf : AlgoResp → List AlgoOrder
  | .jdict orders algoOrders data => firstTruthy [orders, algoOrders, data]
  | .jlist l => l
  | .otherJson => []

/-- `pos_size` (`main.py` lines 102-106): the absolute `positionAmt` of the
first entry for `SYMBOL`, 0.0 when the response is not a list or has no entry
for `SYMBOL`; a parse failure propagates as an exception. -/
def posSizeOf : PosResp → Except Unit ℚ
  | .otherJson => .ok 0
  | .jlist entries =>
    match entries.find? (fun p => p.symbol = SYMBOL) with
    | none => .ok 0
    | some e =>
      match e.positionAmt with
      | .error u => .error u
      | .ok v => .ok |v|

/-- What one monitor tick observes from the exchange: the two fetches (either
may raise, modelled by `Except.error`) and, per orphan-order index, whether the
`DELETE /fapi/v1/algoOrder` attempt in `_cancel_algo` succeeds. -/
structure TickInput where
  posResp : Except Unit PosResp
  algoResp : Except Unit AlgoResp
  cancelOk : ℕ → Bool

/-- What one monitor tick did.  `cancels` lists the `algoId` argument of each
`DELETE /fapi/v1/algoOrder` call issued, in order; `prev` is the value of
`prev_pos_size` after the tick; `errored` is true exactly when an exception
reached the `except` clause of the loop (`main.py` lines 140-141), where it is
logged by `logger.warning` and the loop continues. -/
structure TickResult where
  prev : Option ℚ
  cancels : List (Option ℕ)
  logs : List Level
  errored : Bool

/-- The part of a tick after `pos_size` was computed (`main.py` lines
109-138): fetch algo orders, clean up orphans if the position is flat, log
open/close transitions, store `prev_pos_size`.  Each orphan gets one INFO line
and one `_cancel_algo` attempt whose own try/except logs WARN on success or
ERROR on failure without interrupting the iteration. -/
def tickAfterPos (prev : Option ℚ) (inp : TickInput) (pos_size : ℚ) : TickResult :=
  match inp.algoResp with
  | .error _ => ⟨prev, [], [], true⟩
  | .ok ar =>
    let algo_orders := algoOrdersOf ar
    let doClean := pos_size = 0 ∧ algo_orders ≠ []
    let cancels := if doClean then algo_orders.map AlgoOrder.algoId else []
    let cleanLogs : List Level :=
      if doClean then
        Level.warn ::
          ((List.range algo_orders.length).flatMap fun i =>
            [Level.info, if inp.cancelOk i then Level.warn else Level.error]) ++
          [Level.success]
      else []
    let transLogs : List Level :=
      match prev with
      | none => []
      | some pv =>
        if pv = 0 ∧ 0 < pos_size then [Level.info]
        else if 0 < pv ∧ pos_size = 0 then [Level.success]
        else []
    ⟨some pos_size, cancels, cleanLogs ++ transLogs, false⟩

/-- One iteration of `position_monitor`'s while-loop (`main.py` lines
96-141). -/
def tick (prev : Option ℚ) (inp : TickInput) : TickResult :=
  match inp.posResp with
  | .error _ => ⟨prev, [], [], true⟩
  | .ok pr =>
    match posSizeOf pr with
    | .error _ => ⟨prev, [], [], true⟩
    | .ok pos_size => tickAfterPos prev inp pos_size

/-- The monitor loop itself, run over a finite window of tick observations:
it processes every tick, threading `prev_pos_size`. -/
def monitor : Option ℚ → List TickInput → List TickResult
  | _, [] => []
  | prev, inp :: rest =>
    let r := tick prev inp
    r :: monitor r.prev rest

/-- The arguments `place_order` hands to the background `run_order` thread
(`main.py` lines 275-280). -/
structure RunArgs where
  side : String
  limit_price : ℚ
  amount : ℚ
  tp : ℚ
  sl : ℚ
deriving DecidableEq, Repr

/-- The observable effect of the `POST /place-order` handler: the JSON status
it returns and the `run_order` arguments it spawns. -/
structure PlaceOrderResp where
  status : String
  spawned : RunArgs
deriving DecidableEq, Repr

/-- `place_order` (`main.py` lines 263-281): each of `margin`, `tp_offset`,
`sl_offset` defaults to 0 when the form field is omitted; a non-positive value
is replaced by the configured default; the thread is always started and the
response is always `{"status": "started", ...}`. -/
def place_order (side : String) (limit_price margin tp_offset sl_offset : ℚ) :
    PlaceOrderResp :=
  let amount := if 0 < margin then margin else AMOUNT
  let tp := if 0 < tp_offset then tp_offset else TP_OFFSET
  let sl := if 0 < sl_offset then sl_offset else SL_OFFSET
  ⟨"started", ⟨side, limit_price, amount, tp, sl⟩⟩

/-- A concrete log entry used by witnesses. -/
def entry0 : LogEntry := ⟨"12:00:00", .info, "Dashboard loaded"⟩

/-- A concrete oracle for a fully successful run: leverage set, entry order
503 placed, one NEW poll then a FILLED poll, both algo orders accepted. -/
def oracle0 : Oracle :=
  ⟨.ok (), .ok 503, [.ok ⟨"NEW", 0⟩, .ok ⟨"FILLED", 1 / 6⟩], .ok 101, .ok 102⟩

/-- A concrete oracle whose first poll reports REJECTED. -/
def oracle1 : Oracle :=
  ⟨.ok (), .ok 503, [.ok ⟨"REJECTED", 0⟩], .ok 101, .ok 102⟩

/-- A concrete open-algo-orders response holding two conditional orders. -/
def algoResp0 : AlgoResp :=
  .jlist [⟨some 11, some "TAKE_PROFIT", some 61000⟩, ⟨some 12, some "STOP", none⟩]

/-- A concrete positionRisk response listing only a different symbol. -/
def posRespMiss : PosResp := .jlist [⟨"ETHUSDT", .ok 3⟩]

/-- A concrete tick observation whose position fetch raises. -/
def inpBad : TickInput := ⟨.error (), .ok .otherJson, fun _ => true⟩

/-- The calls `run_order` makes under `oracle0` before placing the
take-profit order. -/
def pre0 : List Call :=
  [Call.change_leverage,
   Call.new_order "BUY" (fmt_qty (quantity 1000 60000)) (fmt_price 60000),
   Call.query_order (.ok ⟨"NEW", 0⟩),
   Call.query_order (.ok ⟨"FILLED", 1 / 6⟩)]

/-- The calls `run_order` makes under `oracle0` after placing the take-profit
order. -/
def post0 : List Call := [Call.place_algo (slParams "BUY" 60000 1000 300)]

/-- A poll response on which the fill-wait loop keeps polling: a successful
status query whose status is neither FILLED nor terminal-non-fill. -/
def nonTerminalPoll (x : Except GErr OrderStatusResp) : Prop :=
  ∃ s : OrderStatusResp, x = .ok s ∧ s.status ≠ "FILLED" ∧
    s.status ≠ "CANCELED" ∧ s.status ≠ "REJECTED" ∧ s.status ≠ "EXPIRED"

/-- The log levels one continuing loop iteration emits (`main.py` lines
187-196): the poll line, a WARN when partially filled, and the next-poll
line. -/
def pollContinueLogs (x : Except GErr OrderStatusResp) : List Level :=
  match x with
  | .error _ => []
  | .ok r =>
    if r.status = "PARTIALLY_FILLED" then [.info, .warn, .info]
    else [.info, .info]

/-- If the fractional part is below one half, `roundHE` rounds down. -/
theorem roundHE_down (q : ℚ) (f : ℤ) (h1 : (f : ℚ) ≤ q) (h2 : q < (f : ℚ) + 1)
    (h3 : q - (f : ℚ) < 1 / 2) : roundHE q = f := by
  have hf : ⌊q⌋ = f := Int.floor_eq_iff.mpr ⟨h1, h2⟩
  unfold roundHE
  rw [hf, if_pos h3]

/-- If the fractional part is above one half, `roundHE` rounds up. -/
theorem roundHE_up (q : ℚ) (f : ℤ) (h1 : (f : ℚ) ≤ q) (h2 : q < (f : ℚ) + 1)
    (h3 : 1 / 2 < q - (f : ℚ)) : roundHE q = f + 1 := by
  have hf : ⌊q⌋ = f := Int.floor_eq_iff.mpr ⟨h1, h2⟩
  unfold roundHE
  rw [hf, if_neg (by linarith), if_pos h3]

/-- Evaluation bridge: once the scaled rounding is known to be the natural
number `m`, the rendering is the digit computation on `m`. -/
theorem fmtFixed_eval (d : ℕ) (q : ℚ) (m : ℕ)
    (h : roundHE (q * (10 : ℚ) ^ d) = (m : ℤ)) :
    fmtFixed d q = String.mk (fixedChars d m) := by
  unfold fmtFixed
  rw [h, if_neg (by exact_mod_cast Int.not_lt.mpr (Int.natCast_nonneg m))]
  simp

/-- Any fuel bounds the digit count by the order of magnitude. -/
theorem digitsAux_len_le : ∀ (fuel n k : ℕ), n < 10 ^ k →
    (digitsAux fuel n).length ≤ k := by
  intro fuel
  induction fuel with
  | zero =>
    intro n k h
    simp [digitsAux]
  | succ fuel ih =>
    intro n k h
    cases n with
    | zero => simp [digitsAux]
    | succ m =>
      cases k with
      | zero => simp at h
      | succ k =>
        simp only [digitsAux, List.length_cons]
        have hdiv : (m + 1) / 10 < 10 ^ k := by
          apply Nat.div_lt_of_lt_mul
          rw [pow_succ, mul_comm] at h
          exact h
        exact Nat.succ_le_succ (ih _ _ hdiv)

/-- Every produced digit is a decimal digit. -/
theorem digitsAux_lt : ∀ (fuel n : ℕ), ∀ d ∈ digitsAux fuel n, d < 10 := by
  intro fuel
  induction fuel with
  | zero =>
    intro n d hd
    simp [digitsAux] at hd
  | succ fuel ih =>
    intro n d hd
    cases n with
    | zero => simp [digitsAux] at hd
    | succ m =>
      simp only [digitsAux, List.mem_cons] at hd
      rcases hd with rfl | hd
      · exact Nat.mod_lt _ (by norm_num)
      · exact ih _ d hd

/-- Decimal digit characters are digits and never the point. -/
theorem digitChar_good : ∀ m, m < 10 →
    Nat.digitChar m ≠ '.' ∧ (Nat.digitChar m).isDigit = true := by decide

/-- The rendering of `n < 10 ^ k` takes at most `k` characters. -/
theorem natStr_len_le (n k : ℕ) (h : n < 10 ^ k) : (natStr n).length ≤ k := by
  unfold natStr
  simpa using digitsAux_len_le n n k h

/-- Every character of a rendered natural is a digit, not a point. -/
theorem natStr_good (n : ℕ) : ∀ c ∈ natStr n, c ≠ '.' ∧ c.isDigit = true := by
  intro c hc
  unfold natStr at hc
  rw [List.mem_reverse, List.mem_map] at hc
  obtain ⟨d, hd, rfl⟩ := hc
  exact digitChar_good d (digitsAux_lt n n d hd)

/-- The zero-padded fractional part has exactly `d` characters. -/
theorem padFrac_length (d n : ℕ) (h : n < 10 ^ d) : (padFrac d n).length = d := by
  have hle := natStr_len_le n d h
  unfold padFrac
  simp only [List.length_append, List.length_replicate]
  omega

/-- Every character of the fractional part is a digit, not a point. -/
theorem padFrac_good (d n : ℕ) : ∀ c ∈ padFrac d n, c ≠ '.' ∧ c.isDigit = true := by
  intro c hc
  unfold padFrac at hc
  rcases List.mem_append.mp hc with h1 | h1
  · rw [List.eq_of_mem_replicate h1]
    exact ⟨by decide, by decide⟩
  · exact natStr_good n c h1

/-- The fixed-point character rendering splits at the point with exactly `d`
digit characters after it. -/
theorem fixedChars_split (d n : ℕ) :
    ∃ a b : List Char, fixedChars d n = a ++ '.' :: b ∧ b.length = d ∧
      ∀ c ∈ b, c ≠ '.' ∧ c.isDigit = true :=
  ⟨natStrZ (n / 10 ^ d), padFrac d (n % 10 ^ d), rfl,
   padFrac_length d _ (Nat.mod_lt n (by positivity)),
   padFrac_good d _⟩

/-- Fixed-point rendering always shows exactly `d` decimal digits. -/
theorem fmtFixed_decimals (d : ℕ) (q : ℚ) :
    ∃ a b : List Char, (fmtFixed d q).data = a ++ '.' :: b ∧ b.length = d ∧
      b.contains '.' = false ∧ b.all Char.isDigit = true := by
  obtain ⟨a, b, hab, hlen, hgood⟩ :=
    fixedChars_split d (roundHE (q * (10 : ℚ) ^ d)).toNat
  obtain ⟨a', b', hab', hlen', hgood'⟩ :=
    fixedChars_split d (-roundHE (q * (10 : ℚ) ^ d)).toNat
  simp only [fmtFixed]
  by_cases hneg : roundHE (q * (10 : ℚ) ^ d) < 0
  · rw [if_pos hneg]
    refine ⟨('-' :: a'), b', ?_, hlen', ?_, ?_⟩
    · show '-' :: fixedChars d (-roundHE (q * (10 : ℚ) ^ d)).toNat =
        ('-' :: a') ++ '.' :: b'
      rw [hab']
      simp
    · have hm : '.' ∉ b' := fun hmem => (hgood' _ hmem).1 rfl
      simpa using hm
    · exact List.all_eq_true.mpr fun c hc => (hgood' c hc).2
  · rw [if_neg hneg]
    refine ⟨a, b, ?_, hlen, ?_, ?_⟩
    · show fixedChars d (roundHE (q * (10 : ℚ) ^ d)).toNat = a ++ '.' :: b
      rw [hab]
    · have hm : '.' ∉ b := fun hmem => (hgood _ hmem).1 rfl
      simpa using hm
    · exact List.all_eq_true.mpr fun c hc => (hgood c hc).2

/-- C5: the order quantity is margin times leverage over price; quantities
always render with exactly 3 decimal digits and prices with exactly 2; and on
the spec's scenario (BUY at 60000, margin 1000, offsets 1000/300, leverage 10)
the rendered quantity is "0.167", the take-profit trigger "61000.00" and the
stop-loss trigger "59700.00". -/
theorem quantity_formatting :
    (∀ amount limit_price : ℚ,
      quantity amount limit_price = amount * LEVERAGE / limit_price) ∧
    (∀ q : ℚ, ∃ a b : List Char, (fmt_qty q).data = a ++ '.' :: b ∧
      b.length = 3 ∧ b.contains '.' = false ∧ b.all Char.isDigit = true) ∧
    (∀ p : ℚ, ∃ a b : List Char, (fmt_price p).data = a ++ '.' :: b ∧
      b.length = 2 ∧ b.contains '.' = false ∧ b.all Char.isDigit = true) ∧
    fmt_qty (quantity 1000 60000) = "0.167" ∧
    fmt_price (take_profit "BUY" 60000 1000) = "61000.00" ∧
    fmt_price (stop_loss "BUY" 60000 300) = "59700.00" := by
  refine ⟨fun a lp => rfl, fun q => fmtFixed_decimals 3 q,
    fun p => fmtFixed_decimals 2 p, ?_, ?_, ?_⟩
  · have hval : quantity 1000 60000 * (10 : ℚ) ^ 3 = 500 / 3 := by
      unfold quantity LEVERAGE
      norm_num
    have h : roundHE (quantity 1000 60000 * (10 : ℚ) ^ 3) = ((167 : ℕ) : ℤ) := by
      rw [hval, roundHE_up (500 / 3) 166 (by norm_num) (by norm_num) (by norm_num)]
      norm_num
    rw [fmt_qty, fmtFixed_eval 3 _ 167 h]
    decide
  · have hval : take_profit "BUY" 60000 1000 * (10 : ℚ) ^ 2 = 6100000 := by
      unfold take_profit
      norm_num
    have h : roundHE (take_profit "BUY" 60000 1000 * (10 : ℚ) ^ 2) =
        ((6100000 : ℕ) : ℤ) := by
      rw [hval,
        roundHE_down 6100000 6100000 (by norm_num) (by norm_num) (by norm_num)]
      norm_num
    rw [fmt_price, fmtFixed_eval 2 _ 6100000 h]
    decide
  · have hval : stop_loss "BUY" 60000 300 * (10 : ℚ) ^ 2 = 5970000 := by
      unfold stop_loss
      norm_num
    have h : roundHE (stop_loss "BUY" 60000 300 * (10 : ℚ) ^ 2) =
        ((5970000 : ℕ) : ℤ) := by
      rw [hval,
        roundHE_down 5970000 5970000 (by norm_num) (by norm_num) (by norm_num)]
      norm_num
    rw [fmt_price, fmtFixed_eval 2 _ 5970000 h]
    decide

/-- Folding `ringAppend` from any state within capacity keeps exactly the most
recent 200 entries, in insertion order. -/
theorem ringAppend_foldl (es : List LogEntry) : ∀ acc : List LogEntry,
    acc.length ≤ 200 →
    List.foldl ringAppend acc es = (acc ++ es).drop ((acc ++ es).length - 200) := by
  induction es with
  | nil =>
    intro acc h
    simp [Nat.sub_eq_zero_of_le h]
  | cons e es ih =>
    intro acc h
    rw [List.foldl_cons]
    by_cases hlen : acc.length = 200
    · have h1 : ringAppend acc e = (acc ++ [e]).drop 1 := by
        unfold ringAppend
        rw [if_pos (by simp [hlen])]
      have h2 : (ringAppend acc e).length ≤ 200 := by
        rw [h1]
        simp [hlen]
      rw [ih _ h2, h1]
      have h3 : (acc ++ [e]).drop 1 ++ es = (acc ++ e :: es).drop 1 := by
        rw [List.drop_append_eq_append_drop, List.drop_append_eq_append_drop, hlen]
        norm_num
      rw [h3, List.drop_drop]
      have h4 : 1 + (((acc ++ e :: es).drop 1).length - 200) =
          (acc ++ e :: es).length - 200 := by
        simp only [List.length_drop, List.length_append, List.length_cons, hlen]
        omega
      rw [h4]
    · have hlt : acc.length < 200 := lt_of_le_of_ne h hlen
      have h1 : ringAppend acc e = acc ++ [e] := by
        unfold ringAppend
        rw [if_neg (by simp; omega)]
      have h2 : (ringAppend acc e).length ≤ 200 := by
        rw [h1]; simp; omega
      rw [ih _ h2, h1]
      simp

/-- C7: the log retains at most the 200 most recent entries; an append within
the bound keeps everything, an append at the bound evicts exactly the oldest
entry (the drop formula), and the bound is preserved; after 250 appends to an
initially empty log exactly the most recent 200 entries remain, oldest
first. -/
theorem ringAppend_retention :
    (∀ (log : List LogEntry) (e : LogEntry), log.length ≤ 200 →
      ringAppend log e = (log ++ [e]).drop ((log ++ [e]).length - 200) ∧
      (ringAppend log e).length ≤ 200) ∧
    (∀ es : List LogEntry, es.length = 250 →
      List.foldl ringAppend [] es = es.drop 50) := by
  constructor
  · intro log e h
    have h1 := ringAppend_foldl [e] log h
    simp only [List.foldl_cons, List.foldl_nil] at h1
    refine ⟨h1, ?_⟩
    rw [h1]
    simp only [List.length_drop, List.length_append, List.length_cons]
    omega
  · intro es h
    have h1 := ringAppend_foldl es [] (by simp)
    simp only [List.nil_append] at h1
    rw [h1, h]

/-- Witness for C7 at concrete inputs. -/
theorem ringAppend_retention_witness :
    ringAppend [] entry0 = ([] ++ [entry0]).drop (([] ++ [entry0]).length - 200) ∧
    List.foldl ringAppend [] (List.replicate 250 entry0) =
      (List.replicate 250 entry0).drop 50 :=
  ⟨(ringAppend_retention.1 [] entry0 (Nat.zero_le 200)).1,
   ringAppend_retention.2 _ (by rw [List.length_replicate])⟩

/-- A `push_log` step offers the entry to the most recent subscriber queue,
which accepts it exactly when below its 200-entry capacity. -/
theorem push_log_subs_getLast (s : BusState) (e : LogEntry) (q : List LogEntry)
    (h : s.subs.getLast? = some q) :
    (push_log s e).subs.getLast? =
      some (if q.length < 200 then q ++ [e] else q) := by
  unfold push_log
  simp [List.getLast?_map, h]

/-- Entries appended after a subscription all reach the subscriber's queue, in
order, while the queue stays within capacity. -/
theorem push_log_foldl_subs (es : List LogEntry) : ∀ (s : BusState) (q : List LogEntry),
    s.subs.getLast? = some q → q.length + es.length ≤ 200 →
    (List.foldl push_log s es).subs.getLast? = some (q ++ es) := by
  induction es with
  | nil =>
    intro s q h _
    simpa using h
  | cons e es ih =>
    intro s q h hlen
    rw [List.foldl_cons]
    have hq : q.length < 200 := by simp at hlen; omega
    have h1 := push_log_subs_getLast s e q h
    rw [if_pos hq] at h1
    have h2 := ih (push_log s e) (q ++ [e]) h1 (by simp at hlen ⊢; omega)
    simpa using h2

/-- C6 (amended): a subscriber attaching to the log stream starts with an
empty queue (the stream sends no backfill); it then receives every entry
appended after subscription, in order, without duplication or loss, as long as
its queue stays below capacity; the most recent 50 retained entries appear
only as the dashboard template's `initial_logs` suffix of the ring. -/
theorem log_stream_no_backfill :
    (∀ s : BusState, (subscribeStream s).subs.getLast? = some []) ∧
    (∀ (s : BusState) (es : List LogEntry), es.length ≤ 200 →
      (List.foldl push_log (subscribeStream s) es).subs.getLast? = some es) ∧
    (∀ s : BusState, (initial_logs s).length = min 50 s.log.length ∧
      s.log = s.log.take (s.log.length - 50) ++ initial_logs s) := by
  refine ⟨?_, ?_, ?_⟩
  · intro s
    unfold subscribeStream
    simp
  · intro s es h
    have h0 : (subscribeStream s).subs.getLast? = some [] := by
      unfold subscribeStream
      simp
    simpa using push_log_foldl_subs es (subscribeStream s) [] h0 (by simpa using h)
  · intro s
    constructor
    · unfold initial_logs
      simp [List.length_drop]
      omega
    · unfold initial_logs
      rw [List.take_append_drop]

/-- C6 counterexample: with one retained entry, the claimed backfill (the most
recent 50 retained entries) is `[entry0]`, but the queue a new stream
subscriber starts with is `[]` — the stream delivers no backfill. -/
theorem log_stream_backfill_counterexample :
    (subscribeStream ⟨[entry0], []⟩).subs.getLast? = some [] ∧
    initial_logs ⟨[entry0], []⟩ = [entry0] ∧
    some ([] : List LogEntry) ≠ some [entry0] := by
  refine ⟨?_, ?_, ?_⟩ <;> decide

/-- Witness for the amended C6 at concrete inputs. -/
theorem log_stream_no_backfill_witness :
    (List.foldl push_log (subscribeStream ⟨[], []⟩) [entry0]).subs.getLast? =
      some [entry0] :=
  log_stream_no_backfill.2.1 ⟨[], []⟩ [entry0] (by simp)

/-- C9: the `POST /place-order` handler always starts the run; a zero,
negative, or omitted (defaulted-to-zero) margin or offset is replaced by the
configured default, a positive one passes through; no positivity validation
rejects the request. -/
theorem place_order_defaults (side : String)
    (limit_price margin tp_offset sl_offset : ℚ) :
    (place_order side limit_price margin tp_offset sl_offset).status = "started" ∧
    (place_order side limit_price margin tp_offset sl_offset).spawned.side = side ∧
    (place_order side limit_price margin tp_offset sl_offset).spawned.limit_price
      = limit_price ∧
    (margin ≤ 0 →
      (place_order side limit_price margin tp_offset sl_offset).spawned.amount
        = AMOUNT) ∧
    (0 < margin →
      (place_order side limit_price margin tp_offset sl_offset).spawned.amount
        = margin) ∧
    (tp_offset ≤ 0 →
      (place_order side limit_price margin tp_offset sl_offset).spawned.tp
        = TP_OFFSET) ∧
    (0 < tp_offset →
      (place_order side limit_price margin tp_offset sl_offset).spawned.tp
        = tp_offset) ∧
    (sl_offset ≤ 0 →
      (place_order side limit_price margin tp_offset sl_offset).spawned.sl
        = SL_OFFSET) ∧
    (0 < sl_offset →
      (place_order side limit_price margin tp_offset sl_offset).spawned.sl
        = sl_offset) := by
  refine ⟨rfl, rfl, rfl, ?_, ?_, ?_, ?_, ?_, ?_⟩ <;>
    intro h <;>
    simp [place_order, h, not_lt.mpr]

/-- Witness for C9: all three fields zero (the omitted-field default). -/
theorem place_order_defaults_witness :
    (place_order "BUY" 60000 0 0 0).status = "started" ∧
    (place_order "BUY" 60000 0 0 0).spawned.amount = AMOUNT ∧
    (place_order "BUY" 60000 0 0 0).spawned.tp = TP_OFFSET ∧
    (place_order "BUY" 60000 0 0 0).spawned.sl = SL_OFFSET :=
  ⟨(place_order_defaults "BUY" 60000 0 0 0).1,
   (place_order_defaults "BUY" 60000 0 0 0).2.2.2.1 le_rfl,
   (place_order_defaults "BUY" 60000 0 0 0).2.2.2.2.2.1 le_rfl,
   (place_order_defaults "BUY" 60000 0 0 0).2.2.2.2.2.2.2.1 le_rfl⟩

/-- C2: on a tick whose fetches succeed and parse, cancellation calls are
issued iff the observed position size is 0 and the open algo-order set is
non-empty; then each order in the set gets exactly one DELETE attempt, in
order; the attempt list does not depend on the per-order attempt outcomes (a
failing cancellation blocks nothing); a positive size issues no
cancellation. -/
theorem tick_cancellation (prev : Option ℚ) (pr : PosResp) (ar : AlgoResp)
    (f g : ℕ → Bool) (ps : ℚ) (hp : posSizeOf pr = .ok ps) :
    ((tick prev ⟨.ok pr, .ok ar, f⟩).cancels ≠ [] ↔
      (ps = 0 ∧ algoOrdersOf ar ≠ [])) ∧
    (ps = 0 → (tick prev ⟨.ok pr, .ok ar, f⟩).cancels =
      (algoOrdersOf ar).map AlgoOrder.algoId) ∧
    (0 < ps → (tick prev ⟨.ok pr, .ok ar, f⟩).cancels = []) ∧
    (tick prev ⟨.ok pr, .ok ar, g⟩).cancels =
      (tick prev ⟨.ok pr, .ok ar, f⟩).cancels := by
  have ht : ∀ h : ℕ → Bool, tick prev ⟨.ok pr, .ok ar, h⟩ =
      tickAfterPos prev ⟨.ok pr, .ok ar, h⟩ ps := by
    intro h
    simp [tick, hp]
  have hc : ∀ h : ℕ → Bool, (tickAfterPos prev ⟨.ok pr, .ok ar, h⟩ ps).cancels =
      if ps = 0 ∧ algoOrdersOf ar ≠ [] then
        (algoOrdersOf ar).map AlgoOrder.algoId
      else [] := by
    intro h
    simp [tickAfterPos]
  refine ⟨?_, ?_, ?_, ?_⟩
  · rw [ht f, hc f]
    by_cases hcond : ps = 0 ∧ algoOrdersOf ar ≠ []
    · rw [if_pos hcond]
      simp [List.map_eq_nil_iff, hcond.1, hcond.2]
    · rw [if_neg hcond]
      simp [hcond]
  · intro h0
    rw [ht f, hc f]
    by_cases ho : algoOrdersOf ar = []
    · rw [if_neg (by simp [ho]), ho]
      simp
    · rw [if_pos ⟨h0, ho⟩]
  · intro hpos
    rw [ht f, hc f, if_neg]
    intro hcond
    rw [hcond.1] at hpos
    exact lt_irrefl 0 hpos
  · rw [ht f, ht g, hc f, hc g]

/-- Witness for C2: flat position, two open conditional orders, every DELETE
attempted. -/
theorem tick_cancellation_witness :
    (tick none ⟨.ok PosResp.otherJson, .ok algoResp0, fun _ => true⟩).cancels =
      (algoOrdersOf algoResp0).map AlgoOrder.algoId :=
  (tick_cancellation none PosResp.otherJson algoResp0 (fun _ => true)
    (fun _ => true) 0 rfl).2.1 rfl

/-- The monitor loop processes every tick of a window: nothing terminates
it. -/
theorem monitor_length (l : List TickInput) : ∀ p0 : Option ℚ,
    (monitor p0 l).length = l.length := by
  induction l with
  | nil =>
    intro p0
    rfl
  | cons a l ih =>
    intro p0
    simp [monitor, ih]

/-- C8: a tick on which an error reached the loop's except-clause leaves
`prev_pos_size` unchanged, issues no cancellation, and the loop carries on
with the remaining ticks (it never terminates: every tick of any window is
processed). -/
theorem tick_error_resilience (prev : Option ℚ) (inp : TickInput)
    (rest : List TickInput) (he : (tick prev inp).errored = true) :
    (tick prev inp).prev = prev ∧
    (tick prev inp).cancels = [] ∧
    monitor prev (inp :: rest) = tick prev inp :: monitor prev rest ∧
    ∀ (p0 : Option ℚ) (l : List TickInput), (monitor p0 l).length = l.length := by
  have hstruct : (tick prev inp).prev = prev ∧ (tick prev inp).cancels = [] := by
    cases hpos : inp.posResp with
    | error u =>
      simp [tick, hpos]
    | ok pr =>
      cases hps : posSizeOf pr with
      | error u =>
        simp [tick, hpos, hps]
      | ok ps =>
        cases har : inp.algoResp with
        | error u =>
          simp [tick, tickAfterPos, hpos, hps, har]
        | ok ar =>
          exfalso
          simp [tick, tickAfterPos, hpos, hps, har] at he
  refine ⟨hstruct.1, hstruct.2, ?_, fun p0 l => monitor_length l p0⟩
  show monitor prev (inp :: rest) = tick prev inp :: monitor prev rest
  rw [monitor]
  rw [hstruct.1]

/-- Witness for C8: the position fetch raises. -/
theorem tick_error_resilience_witness :
    (tick (some 5) inpBad).prev = some 5 ∧ (tick (some 5) inpBad).cancels = [] :=
  ⟨(tick_error_resilience (some 5) inpBad [] rfl).1,
   (tick_error_resilience (some 5) inpBad [] rfl).2.1⟩

/-- C10: a positionRisk response that is not a list, or lists no entry for
`SYMBOL`, yields position size 0; if the same tick sees a non-empty algo-order
set it then attempts to cancel every order in the set. -/
theorem tick_missing_position (prev : Option ℚ) (pr : PosResp) (ar : AlgoResp)
    (f : ℕ → Bool)
    (hp : pr = PosResp.otherJson ∨
      ∃ l, pr = PosResp.jlist l ∧ l.find? (fun p => p.symbol = SYMBOL) = none) :
    posSizeOf pr = .ok 0 ∧
    (algoOrdersOf ar ≠ [] →
      (tick prev ⟨.ok pr, .ok ar, f⟩).cancels =
        (algoOrdersOf ar).map AlgoOrder.algoId ∧
      (tick prev ⟨.ok pr, .ok ar, f⟩).cancels ≠ []) := by
  have hps : posSizeOf pr = .ok 0 := by
    rcases hp with h | ⟨l, rfl, hfind⟩
    · rw [h]
      rfl
    · simp [posSizeOf, hfind]
  refine ⟨hps, fun ho => ?_⟩
  have ht : tick prev ⟨.ok pr, .ok ar, f⟩ =
      tickAfterPos prev ⟨.ok pr, .ok ar, f⟩ 0 := by
    simp [tick, hps]
  rw [ht]
  constructor
  · simp [tickAfterPos, ho]
  · simp [tickAfterPos, ho, List.map_eq_nil_iff]

/-- A list member left of a split point lies in the split's left part. -/
theorem mem_of_eq_append_cons {α : Type} (l₁ l₂ pre post : List α) (x : α)
    (h : l₁ ++ l₂ = pre ++ x :: post) (hx : x ∉ l₁) : ∀ y ∈ l₁, y ∈ pre := by
  induction l₁ generalizing pre with
  | nil =>
    intro y hy
    simp at hy
  | cons a t ih =>
    intro y hy
    cases pre with
    | nil =>
      exfalso
      simp only [List.cons_append, List.nil_append, List.cons.injEq] at h
      exact hx (h.1 ▸ List.mem_cons_self a t)
    | cons b pr =>
      simp only [List.cons_append, List.cons.injEq] at h
      rcases List.mem_cons.mp hy with hy | hy
      · rw [hy, h.1]
        exact List.mem_cons_self b pr
      · exact List.mem_cons_of_mem b
          (ih pr h.2 (fun hm => hx (List.mem_cons_of_mem a hm)) y hy)

/-- The element at a split point not occurring left of it lies in the right
part. -/
theorem right_mem_of_eq_append_cons {α : Type} (l₁ l₂ pre post : List α) (x : α)
    (h : l₁ ++ l₂ = pre ++ x :: post) (hx : x ∉ l₁) : x ∈ l₂ := by
  have hm : x ∈ l₁ ++ l₂ := by
    rw [h]
    exact List.mem_append.mpr (Or.inr (List.mem_cons_self x post))
  rcases List.mem_append.mp hm with h1 | h1
  · exact absurd h1 hx
  · exact h1

/-- Every call the fill-wait loop itself makes is a status query, never a
protective-order placement. -/
theorem fillWait_calls_query (polls : List (Except GErr OrderStatusResp)) :
    ∀ c ∈ (fillWait polls).calls, c.isPlace = false := by
  induction polls with
  | nil =>
    intro c hc
    simp [fillWait] at hc
  | cons x rest ih =>
    intro c hc
    cases x with
    | error e =>
      simp [fillWait] at hc
      rw [hc]
      rfl
    | ok r =>
      by_cases h1 : r.status = "FILLED"
      · simp [fillWait, h1] at hc
        rw [hc]
        rfl
      · by_cases h2 : r.status = "CANCELED" ∨ r.status = "REJECTED" ∨
            r.status = "EXPIRED"
        · simp [fillWait, h1, h2] at hc
          rw [hc]
          rfl
        · by_cases h3 : r.status = "PARTIALLY_FILLED"
          · simp [fillWait, h1, h2, h3] at hc
            rcases hc with hc | hc
            · rw [hc]
              rfl
            · exact ih c hc
          · simp [fillWait, h1, h2, h3] at hc
            rcases hc with hc | hc
            · rw [hc]
              rfl
            · exact ih c hc

/-- When the fill-wait loop ends in `filled`, its last call is the status
query that returned FILLED. -/
theorem fillWait_filled (polls : List (Except GErr OrderStatusResp)) :
    (fillWait polls).outcome = .filled →
    ∃ (cs : List Call) (r : OrderStatusResp),
      (fillWait polls).calls = cs ++ [Call.query_order (.ok r)] ∧
      r.status = "FILLED" := by
  induction polls with
  | nil =>
    intro h
    simp [fillWait] at h
  | cons x rest ih =>
    intro h
    cases x with
    | error e =>
      simp [fillWait] at h
    | ok r =>
      by_cases h1 : r.status = "FILLED"
      · exact ⟨[], r, by simp [fillWait, h1], h1⟩
      · by_cases h2 : r.status = "CANCELED" ∨ r.status = "REJECTED" ∨
            r.status = "EXPIRED"
        · simp [fillWait, h1, h2] at h
        · by_cases h3 : r.status = "PARTIALLY_FILLED"
          · simp [fillWait, h1, h2, h3] at h
            obtain ⟨cs, r', hcs, hr⟩ := ih h
            exact ⟨Call.query_order (.ok r) :: cs, r',
              by simp [fillWait, h1, h2, h3, hcs], hr⟩
          · simp [fillWait, h1, h2, h3] at h
            obtain ⟨cs, r', hcs, hr⟩ := ih h
            exact ⟨Call.query_order (.ok r) :: cs, r',
              by simp [fillWait, h1, h2, h3, hcs], hr⟩

/-- Core of C1: in a call list of the form `base ++ loop calls ++ tail`, where
neither `base` nor the loop calls place protective orders and the loop calls
end with the FILLED query, any split at a protective placement puts the FILLED
query before the split. -/
theorem c1_core (base fcCalls algos pre post : List Call) (p : AlgoParams)
    (cs : List Call) (r : OrderStatusResp)
    (hbase : ∀ c ∈ base, c.isPlace = false)
    (hfc : ∀ c ∈ fcCalls, c.isPlace = false)
    (hcs : fcCalls = cs ++ [Call.query_order (.ok r)])
    (h : base ++ fcCalls ++ algos = pre ++ Call.place_algo p :: post) :
    Call.query_order (.ok r) ∈ pre := by
  have hx : Call.place_algo p ∉ base ++ fcCalls := by
    intro hmem
    rcases List.mem_append.mp hmem with h1 | h1
    · have := hbase _ h1
      simp [Call.isPlace] at this
    · have := hfc _ h1
      simp [Call.isPlace] at this
  refine mem_of_eq_append_cons (base ++ fcCalls) algos _ _ _ h hx _ ?_
  exact List.mem_append.mpr (Or.inr (by
    rw [hcs]
    exact List.mem_append.mpr (Or.inr (List.mem_cons_self _ _))))

/-- C1: `run_order` never issues a protective-order placement without a
status query having returned FILLED strictly earlier in its call trace. -/
theorem run_order_fill_before_protect (o : Oracle) (side : String)
    (limit_price amount tp_offset sl_offset : ℚ)
    (pre post : List Call) (p : AlgoParams)
    (h : (run_order o side limit_price amount tp_offset sl_offset).calls =
      pre ++ Call.place_algo p :: post) :
    ∃ r : OrderStatusResp,
      Call.query_order (.ok r) ∈ pre ∧ r.status = "FILLED" := by
  have hmem : Call.place_algo p ∈
      (run_order o side limit_price amount tp_offset sl_offset).calls := by
    rw [h]
    exact List.mem_append.mpr (Or.inr (List.mem_cons_self _ _))
  have hbase : ∀ c ∈ [Call.change_leverage,
      Call.new_order side (fmt_qty (quantity amount limit_price))
        (fmt_price limit_price)], c.isPlace = false := by
    intro c hc
    simp at hc
    rcases hc with rfl | rfl <;> rfl
  cases hlev : o.levResp with
  | error e =>
    exfalso
    simp [run_order, hlev] at hmem
  | ok u =>
    cases hentry : o.entryResp with
    | error e =>
      exfalso
      simp [run_order, hlev, hentry] at hmem
    | ok nid =>
      cases hfo : (fillWait o.polls).outcome with
      | stillWaiting =>
        exfalso
        simp [run_order, hlev, hentry, hfo] at hmem
        exact absurd (fillWait_calls_query o.polls _ hmem) (by simp [Call.isPlace])
      | gatewayError =>
        exfalso
        simp [run_order, hlev, hentry, hfo] at hmem
        exact absurd (fillWait_calls_query o.polls _ hmem) (by simp [Call.isPlace])
      | terminalNonFill =>
        exfalso
        simp [run_order, hlev, hentry, hfo] at hmem
        exact absurd (fillWait_calls_query o.polls _ hmem) (by simp [Call.isPlace])
      | filled =>
        obtain ⟨cs, r, hcs, hr⟩ := fillWait_filled o.polls hfo
        refine ⟨r, ?_, hr⟩
        cases htp : o.tpResp with
        | error e =>
          have hcalls : (run_order o side limit_price amount tp_offset sl_offset).calls =
              [Call.change_leverage,
               Call.new_order side (fmt_qty (quantity amount limit_price))
                 (fmt_price limit_price)] ++
              (fillWait o.polls).calls ++
              [Call.place_algo (tpParams side limit_price amount tp_offset)] := by
            simp [run_order, hlev, hentry, hfo, htp]
          rw [hcalls] at h
          exact c1_core _ _ _ _ _ p cs r hbase (fillWait_calls_query o.polls) hcs h
        | ok tid =>
          cases hsl : o.slResp with
          | error e =>
            have hcalls : (run_order o side limit_price amount tp_offset sl_offset).calls =
                [Call.change_leverage,
                 Call.new_order side (fmt_qty (quantity amount limit_price))
                   (fmt_price limit_price)] ++
                (fillWait o.polls).calls ++
                [Call.place_algo (tpParams side limit_price amount tp_offset),
                 Call.place_algo (slParams side limit_price amount sl_offset)] := by
              simp [run_order, hlev, hentry, hfo, htp, hsl]
            rw [hcalls] at h
            exact c1_core _ _ _ _ _ p cs r hbase (fillWait_calls_query o.polls) hcs h
          | ok sid =>
            have hcalls : (run_order o side limit_price amount tp_offset sl_offset).calls =
                [Call.change_leverage,
                 Call.new_order side (fmt_qty (quantity amount limit_price))
                   (fmt_price limit_price)] ++
                (fillWait o.polls).calls ++
                [Call.place_algo (tpParams side limit_price amount tp_offset),
                 Call.place_algo (slParams side limit_price amount sl_offset)] := by
              simp [run_order, hlev, hentry, hfo, htp, hsl]
            rw [hcalls] at h
            exact c1_core _ _ _ _ _ p cs r hbase (fillWait_calls_query o.polls) hcs h

/-- Witness for C1: under `oracle0` the take-profit placement is preceded by
the FILLED query. -/
theorem run_order_fill_before_protect_witness :
    ∃ r : OrderStatusResp,
      Call.query_order (.ok r) ∈ pre0 ∧ r.status = "FILLED" :=
  run_order_fill_before_protect oracle0 "BUY" 60000 1000 1000 300
    pre0 post0 (tpParams "BUY" 60000 1000 1000) rfl

/-- Neither the leverage/entry calls nor the fill-wait loop's calls place a
protective order. -/
theorem not_place_in_base (side : String) (limit_price amount : ℚ)
    (polls : List (Except GErr OrderStatusResp)) (p : AlgoParams) :
    Call.place_algo p ∉
      [Call.change_leverage,
       Call.new_order side (fmt_qty (quantity amount limit_price))
         (fmt_price limit_price)] ++ (fillWait polls).calls := by
  intro hmem
  rcases List.mem_append.mp hmem with h1 | h1
  · simp at h1
  · have := fillWait_calls_query polls _ h1
    simp [Call.isPlace] at this

/-- Any protective order `run_order` places is the computed take-profit or
stop-loss order. -/
theorem run_order_place_mem (o : Oracle) (side : String)
    (limit_price amount tp_offset sl_offset : ℚ)
    (pre post : List Call) (p : AlgoParams)
    (h : (run_order o side limit_price amount tp_offset sl_offset).calls =
      pre ++ Call.place_algo p :: post) :
    p = tpParams side limit_price amount tp_offset ∨
    p = slParams side limit_price amount sl_offset := by
  have hmem : Call.place_algo p ∈
      (run_order o side limit_price amount tp_offset sl_offset).calls := by
    rw [h]
    exact List.mem_append.mpr (Or.inr (List.mem_cons_self _ _))
  cases hlev : o.levResp with
  | error e =>
    exfalso
    simp [run_order, hlev] at hmem
  | ok u =>
    cases hentry : o.entryResp with
    | error e =>
      exfalso
      simp [run_order, hlev, hentry] at hmem
    | ok nid =>
      cases hfo : (fillWait o.polls).outcome with
      | stillWaiting =>
        exfalso
        simp [run_order, hlev, hentry, hfo] at hmem
        exact absurd (fillWait_calls_query o.polls _ hmem) (by simp [Call.isPlace])
      | gatewayError =>
        exfalso
        simp [run_order, hlev, hentry, hfo] at hmem
        exact absurd (fillWait_calls_query o.polls _ hmem) (by simp [Call.isPlace])
      | terminalNonFill =>
        exfalso
        simp [run_order, hlev, hentry, hfo] at hmem
        exact absurd (fillWait_calls_query o.polls _ hmem) (by simp [Call.isPlace])
      | filled =>
        cases htp : o.tpResp with
        | error e =>
          have hcalls : (run_order o side limit_price amount tp_offset sl_offset).calls =
              [Call.change_leverage,
               Call.new_order side (fmt_qty (quantity amount limit_price))
                 (fmt_price limit_price)] ++
              (fillWait o.polls).calls ++
              [Call.place_algo (tpParams side limit_price amount tp_offset)] := by
            simp [run_order, hlev, hentry, hfo, htp]
          rw [hcalls] at h
          have hr := right_mem_of_eq_append_cons _ _ _ _ _ h
            (not_place_in_base side limit_price amount o.polls p)
          simp at hr
          exact Or.inl hr
        | ok tid =>
          cases hsl : o.slResp with
          | error e =>
            have hcalls : (run_order o side limit_price amount tp_offset sl_offset).calls =
                [Call.change_leverage,
                 Call.new_order side (fmt_qty (quantity amount limit_price))
                   (fmt_price limit_price)] ++
                (fillWait o.polls).calls ++
                [Call.place_algo (tpParams side limit_price amount tp_offset),
                 Call.place_algo (slParams side limit_price amount sl_offset)] := by
              simp [run_order, hlev, hentry, hfo, htp, hsl]
            rw [hcalls] at h
            have hr := right_mem_of_eq_append_cons _ _ _ _ _ h
              (not_place_in_base side limit_price amount o.polls p)
            simp at hr
            exact hr
          | ok sid =>
            have hcalls : (run_order o side limit_price amount tp_offset sl_offset).calls =
                [Call.change_leverage,
                 Call.new_order side (fmt_qty (quantity amount limit_price))
                   (fmt_price limit_price)] ++
                (fillWait o.polls).calls ++
                [Call.place_algo (tpParams side limit_price amount tp_offset),
                 Call.place_algo (slParams side limit_price amount sl_offset)] := by
              simp [run_order, hlev, hentry, hfo, htp, hsl]
            rw [hcalls] at h
            have hr := right_mem_of_eq_append_cons _ _ _ _ _ h
              (not_place_in_base side limit_price amount o.polls p)
            simp at hr
            exact hr

/-- C4: every protective order `run_order` submits carries the side opposite
to the entry side, is the TAKE_PROFIT or the STOP leg, and its trigger price
is the entry price plus the offset for a BUY take-profit (minus for the
stop-loss), with both signs inverted for SELL. -/
theorem run_order_exit_orders (o : Oracle) (side : String)
    (limit_price amount tp_offset sl_offset : ℚ)
    (hside : side = "BUY" ∨ side = "SELL")
    (pre post : List Call) (p : AlgoParams)
    (h : (run_order o side limit_price amount tp_offset sl_offset).calls =
      pre ++ Call.place_algo p :: post) :
    p.side = exit_side side ∧ p.side ≠ side ∧
    (p.otype = "TAKE_PROFIT" ∨ p.otype = "STOP") ∧
    (p.otype = "TAKE_PROFIT" →
      p.triggerPrice = fmt_price (take_profit side limit_price tp_offset)) ∧
    (p.otype = "STOP" →
      p.triggerPrice = fmt_price (stop_loss side limit_price sl_offset)) ∧
    take_profit side limit_price tp_offset =
      (if side = "BUY" then limit_price + tp_offset else limit_price - tp_offset) ∧
    stop_loss side limit_price sl_offset =
      (if side = "BUY" then limit_price - sl_offset else limit_price + sl_offset) := by
  have hp := run_order_place_mem o side limit_price amount tp_offset sl_offset
    pre post p h
  have hexit : exit_side side ≠ side := by
    rcases hside with rfl | rfl <;> decide
  rcases hp with rfl | rfl
  · exact ⟨rfl, hexit, Or.inl rfl, fun _ => rfl,
      fun habs => by simp [tpParams] at habs, rfl, rfl⟩
  · exact ⟨rfl, hexit, Or.inr rfl,
      fun habs => by simp [slParams] at habs, fun _ => rfl, rfl, rfl⟩

/-- Witness for C4 at `oracle0`: the take-profit leg of a BUY entry is a SELL
order triggering at the entry price plus the offset. -/
theorem run_order_exit_orders_witness :
    (tpParams "BUY" 60000 1000 1000).side = exit_side "BUY" ∧
    (tpParams "BUY" 60000 1000 1000).side ≠ "BUY" ∧
    (tpParams "BUY" 60000 1000 1000).triggerPrice =
      fmt_price (take_profit "BUY" 60000 1000) :=
  ⟨(run_order_exit_orders oracle0 "BUY" 60000 1000 1000 300 (Or.inl rfl)
      pre0 post0 (tpParams "BUY" 60000 1000 1000) rfl).1,
   (run_order_exit_orders oracle0 "BUY" 60000 1000 1000 300 (Or.inl rfl)
      pre0 post0 (tpParams "BUY" 60000 1000 1000) rfl).2.1,
   (run_order_exit_orders oracle0 "BUY" 60000 1000 1000 300 (Or.inl rfl)
      pre0 post0 (tpParams "BUY" 60000 1000 1000) rfl).2.2.2.1 rfl⟩

/-- Continuing loop iterations never log at ERROR level. -/
theorem pollContinueLogs_no_error (x : Except GErr OrderStatusResp) :
    Level.error ∉ pollContinueLogs x := by
  unfold pollContinueLogs
  cases x with
  | error e => simp
  | ok r =>
    by_cases h : r.status = "PARTIALLY_FILLED"
    · simp [h]
    · simp [h]

/-- Running the fill-wait loop over non-terminal polls followed by a
CANCELED/REJECTED/EXPIRED response: one query per poll, the continue logs then
INFO+ERROR, and the loop reports the terminal non-fill outcome. -/
theorem fillWait_terminal (pre : List (Except GErr OrderStatusResp))
    (r : OrderStatusResp) (rest : List (Except GErr OrderStatusResp))
    (hpre : ∀ x ∈ pre, nonTerminalPoll x)
    (hr : r.status = "CANCELED" ∨ r.status = "REJECTED" ∨ r.status = "EXPIRED") :
    fillWait (pre ++ .ok r :: rest) =
      ⟨pre.map Call.query_order ++ [Call.query_order (.ok r)],
       pre.flatMap pollContinueLogs ++ [.info, .error],
       .terminalNonFill⟩ := by
  have hrf : r.status ≠ "FILLED" := by
    rcases hr with h | h | h <;> rw [h] <;> decide
  induction pre with
  | nil =>
    simp [fillWait, hrf, hr]
  | cons x pre ih =>
    obtain ⟨s, rfl, hs1, hs2, hs3, hs4⟩ := hpre x (List.mem_cons_self _ _)
    have ih2 := ih (fun y hy => hpre y (List.mem_cons_of_mem _ hy))
    by_cases hp : s.status = "PARTIALLY_FILLED"
    · simp [fillWait, hs1, hs2, hs3, hs4, hp, pollContinueLogs, ih2]
    · simp [fillWait, hs1, hs2, hs3, hs4, hp, pollContinueLogs, ih2]

/-- C3: when the entry was placed and a status query reports CANCELED,
REJECTED, or EXPIRED after only non-terminal polls, the run's gateway calls
end at that query (no further calls, in particular no protective placement),
exactly one ERROR entry is logged, and the run aborts. -/
theorem run_order_terminal_abort (o : Oracle) (side : String)
    (limit_price amount tp_offset sl_offset : ℚ) (u : Unit) (nid : ℕ)
    (pre rest : List (Except GErr OrderStatusResp)) (r : OrderStatusResp)
    (hlev : o.levResp = .ok u) (hentry : o.entryResp = .ok nid)
    (hpolls : o.polls = pre ++ .ok r :: rest)
    (hpre : ∀ x ∈ pre, nonTerminalPoll x)
    (hr : r.status = "CANCELED" ∨ r.status = "REJECTED" ∨ r.status = "EXPIRED") :
    (run_order o side limit_price amount tp_offset sl_offset).calls =
      [Call.change_leverage,
       Call.new_order side (fmt_qty (quantity amount limit_price))
         (fmt_price limit_price)] ++
      pre.map Call.query_order ++ [Call.query_order (.ok r)] ∧
    (run_order o side limit_price amount tp_offset sl_offset).logs.count
      Level.error = 1 ∧
    (run_order o side limit_price amount tp_offset sl_offset).outcome =
      .aborted := by
  have hfw := fillWait_terminal pre r rest hpre hr
  have hflat : (pre.flatMap pollContinueLogs).count Level.error = 0 :=
    List.count_eq_zero.mpr fun hmem => by
      obtain ⟨x, _, hx⟩ := List.mem_flatMap.mp hmem
      exact pollContinueLogs_no_error x hx
  refine ⟨?_, ?_, ?_⟩
  · simp [run_order, hlev, hentry, hpolls, hfw]
  · simp [run_order, hlev, hentry, hpolls, hfw, List.count_append, hflat]
  · simp [run_order, hlev, hentry, hpolls, hfw]

/-- Witness for C3: `oracle1`'s first poll reports REJECTED. -/
theorem run_order_terminal_abort_witness :
    (run_order oracle1 "BUY" 60000 1000 1000 300).calls =
      [Call.change_leverage,
       Call.new_order "BUY" (fmt_qty (quantity 1000 60000)) (fmt_price 60000)] ++
      List.map Call.query_order [] ++
      [Call.query_order (.ok ⟨"REJECTED", 0⟩)] ∧
    (run_order oracle1 "BUY" 60000 1000 1000 300).logs.count Level.error = 1 ∧
    (run_order oracle1 "BUY" 60000 1000 1000 300).outcome = .aborted :=
  run_order_terminal_abort oracle1 "BUY" 60000 1000 1000 300 () 503
    [] [] ⟨"REJECTED", 0⟩ rfl rfl rfl
    (fun x hx => absurd hx (List.not_mem_nil x))
    (Or.inr (Or.inl rfl))

/-- Witness for C10: a response listing only another symbol, with two open
conditional orders. -/
theorem tick_missing_position_witness :
    posSizeOf posRespMiss = .ok 0 ∧
    (tick none ⟨.ok posRespMiss, .ok algoResp0, fun _ => true⟩).cancels ≠ [] :=
  ⟨(tick_missing_position none posRespMiss algoResp0 (fun _ => true)
      (Or.inr ⟨[⟨"ETHUSDT", .ok 3⟩], rfl, by decide⟩)).1,
   ((tick_missing_position none posRespMiss algoResp0 (fun _ => true)
      (Or.inr ⟨[⟨"ETHUSDT", .ok 3⟩], rfl, by decide⟩)).2 (by decide)).2⟩

end TgcAlgo
